import Mathlib

/-!
Verification development for the fml-sdk repository.

The core under scrutiny is the string-based `parseFML` (the compiled
resolver): it reads a file, repeatedly finds the first `<include src="..."/>`
or `<include src="...">...</include>` directive with a JavaScript regular
expression, replaces it (via `String.prototype.replace`) with the recursively
resolved content of its target, and finally runs Mustache variable
interpolation over the assembled text with a custom escape function.

Machine strings are embedded as `List Char`.  The recursion of the resolver
is embedded with an explicit fuel parameter (the JavaScript original has no
a-priori termination bound; fuel exhaustion at every fuel models divergence).
File systems are association lists from absolute paths (segment lists) to
file contents.
-/

/-- JavaScript whitespace class `\s`, restricted to the characters that occur
in the examples of this development (space, tab, newline, carriage return). -/
def isWS (c : Char) : Bool :=
  c = ' ' || c = Char.ofNat 9 || c = Char.ofNat 10 || c = Char.ofNat 13

/-- The left curly brace character. -/
def lbc : Char := Char.ofNat 123

/-- The right curly brace character. -/
def rbc : Char := Char.ofNat 125

/-- The backquote character, special in JS replacement strings. -/
def bqc : Char := Char.ofNat 96

/-- The single-quote character, special in JS replacement strings. -/
def sqc : Char := Char.ofNat 39

mutual
/-- JavaScript values that can appear in the caller-supplied variable
mapping: strings, numbers (embedded as integers; the examples use integral
numbers only), booleans, null, arrays and objects. -/
inductive JVal where
  | str (s : String)
  | num (n : Int)
  | bool (b : Bool)
  | null
  | arr (xs : JArr)
  | obj (fields : JObj)
deriving DecidableEq

/-- A JavaScript array of `JVal`s (spelled out to keep recursion structural). -/
inductive JArr where
  | nil
  | cons (hd : JVal) (tl : JArr)
deriving DecidableEq

/-- A JavaScript object: an ordered list of key/value fields. -/
inductive JObj where
  | nil
  | cons (key : String) (val : JVal) (tl : JObj)
deriving DecidableEq
end

/-- Escaping of a single character inside a JSON string literal, as done by
`JSON.stringify` (quote, backslash and the common control characters). -/
def jsonEscapeChar (c : Char) : String :=
  if c = '"' then "\\\""
  else if c = '\\' then "\\\\"
  else if c = Char.ofNat 10 then "\\n"
  else if c = Char.ofNat 9 then "\\t"
  else if c = Char.ofNat 13 then "\\r"
  else String.singleton c

/-- A JSON string literal: the escaped characters surrounded by quotes. -/
def jsonQuote (s : String) : String :=
  "\"" ++ String.join (s.data.map jsonEscapeChar) ++ "\""

/-- A run of `n` spaces, used for JSON indentation. -/
def indentStr (n : Nat) : String := String.mk (List.replicate n ' ')

mutual
/-- `JSON.stringify(value, null, 2)` at indentation level `ind`: the
pretty-printed, two-space-indented JSON rendering used by the custom Mustache
escape function of the compiled `parseFML`. -/
def jsonStringify (ind : Nat) : JVal → String
  | .str s => jsonQuote s
  | .num n => toString n
  | .bool b => if b then "true" else "false"
  | .null => "null"
  | .arr .nil => "[]"
  | .arr (.cons hd tl) =>
      "[\n" ++ jsonItems (ind + 2) (.cons hd tl) ++ "\n" ++ indentStr ind ++ "]"
  | .obj .nil => "\x7b\x7d"
  | .obj (.cons k v tl) =>
      "\x7b\n" ++ jsonFields (ind + 2) (.cons k v tl) ++ "\n" ++ indentStr ind ++ "\x7d"

/-- The comma-and-newline separated items of a JSON array, each indented. -/
def jsonItems (ind : Nat) : JArr → String
  | .nil => ""
  | .cons hd .nil => indentStr ind ++ jsonStringify ind hd
  | .cons hd (.cons h2 t2) =>
      indentStr ind ++ jsonStringify ind hd ++ ",\n" ++ jsonItems ind (.cons h2 t2)

/-- The comma-and-newline separated fields of a JSON object, each indented. -/
def jsonFields (ind : Nat) : JObj → String
  | .nil => ""
  | .cons k v .nil => indentStr ind ++ jsonQuote k ++ ": " ++ jsonStringify ind v
  | .cons k v (.cons k2 v2 t2) =>
      indentStr ind ++ jsonQuote k ++ ": " ++ jsonStringify ind v ++ ",\n" ++
        jsonFields ind (.cons k2 v2 t2)
end

mutual
/-- JavaScript `String(value)` coercion: identity on strings, decimal for
numbers, `true`/`false`, `null`, comma-joined element coercions for arrays
(`Array.prototype.toString`), and `[object Object]` for plain objects. -/
def jsStringCoerce : JVal → String
  | .str s => s
  | .num n => toString n
  | .bool b => if b then "true" else "false"
  | .null => "null"
  | .arr xs => jsArrCoerce xs
  | .obj _ => "[object Object]"

/-- `Array.prototype.toString`: elements coerced with `String`, except that
`null` becomes empty, joined with commas. -/
def jsArrCoerce : JArr → String
  | .nil => ""
  | .cons hd .nil => (match hd with | .null => "" | v => jsStringCoerce v)
  | .cons hd (.cons h2 t2) =>
      (match hd with | .null => "" | v => jsStringCoerce v) ++ "," ++
        jsArrCoerce (.cons h2 t2)
end

/-- The custom Mustache escape function installed by the compiled `parseFML`:
objects and arrays are rendered as pretty-printed indented JSON
(`JSON.stringify(value, null, 2)`); every other value is rendered by plain
`String(value)` conversion, with no escaping applied. -/
def mustEscape : JVal → String
  | .arr xs => jsonStringify 0 (.arr xs)
  | .obj fields => jsonStringify 0 (.obj fields)
  | v => jsStringCoerce v

/-- HTML-escaping of one character, as done by Mustache's default escape
(entity map for the characters `& < > " / = `, single quote, backquote). -/
def htmlEscapeChar (c : Char) : String :=
  if c = '&' then "&amp;"
  else if c = '<' then "&lt;"
  else if c = '>' then "&gt;"
  else if c = '"' then "&quot;"
  else if c = sqc then "&#39;"
  else if c = '/' then "&#x2F;"
  else if c = bqc then "&#x60;"
  else if c = '=' then "&#x3D;"
  else String.singleton c

/-- Mustache's default escape: HTML-escape the `String(value)` coercion.
It is used by the `interpolate` helper of the message extractor, which calls
`Mustache.render` without a custom escape. -/
def defaultEscape (v : JVal) : String :=
  String.join ((jsStringCoerce v).data.map htmlEscapeChar)

/-- The caller-supplied variable mapping: names paired with values. -/
abbrev VarMap := List (String × JVal)

/-- Property lookup in the variable mapping (JS object property read). -/
def lookupVar (vars : VarMap) (name : String) : Option JVal :=
  (vars.find? (fun p => p.1 == name)).map (fun p => p.2)

/-- Strip JavaScript whitespace from both ends of a character list (Mustache
trims the tag name between the braces before looking it up). -/
def trimChars (s : List Char) : List Char :=
  ((s.dropWhile isWS).reverse.dropWhile isWS).reverse

/-- Scan for the first closing `\x7d\x7d` of a Mustache tag: returns the
characters before it and the remainder after it, or `none` if the tag is
never closed. -/
def splitAtClose : List Char → Option (List Char × List Char)
  | [] => none
  | c :: rest =>
    if c = rbc then
      match rest with
      | c2 :: rest2 =>
        if c2 = rbc then some ([], rest2)
        else (splitAtClose rest).map (fun p => (c :: p.1, p.2))
      | [] => none
    else (splitAtClose rest).map (fun p => (c :: p.1, p.2))

/-- The text emitted for one Mustache interpolation tag with (trimmed) name
characters `nm`: nothing when the name is absent from the mapping or bound to
`null` (Mustache's `value != null` check), otherwise the escaped value. -/
def renderEmit (esc : JVal → String) (vars : VarMap) (nm : List Char) : List Char :=
  match lookupVar vars (String.mk (trimChars nm)) with
  | none => []
  | some .null => []
  | some v => (esc v).data

/-- One left-to-right pass of Mustache variable interpolation over a
character list, parameterised by the escape function.  Fuel is an upper bound
on the number of characters still to be processed (callers pass the length of
the input, which always suffices); substituted text is emitted verbatim and
never re-scanned, exactly as Mustache emits token values into its output
buffer.  This models the interpolation-tag fragment of Mustache that the
repository uses (simple `\x7b\x7b name \x7d\x7d` tags; sections, partials and
dotted names do not occur in the claims). -/
def renderF (esc : JVal → String) (vars : VarMap) : Nat → List Char → List Char
  | 0, s => s
  | _ + 1, [] => []
  | f + 1, c :: rest =>
    if c = lbc then
      match rest with
      | [] => [c]
      | c2 :: rest2 =>
        if c2 = lbc then
          match splitAtClose rest2 with
          | some (nm, rem) => renderEmit esc vars nm ++ renderF esc vars f rem
          | none => c :: c2 :: rest2
        else c :: renderF esc vars f rest
    else c :: renderF esc vars f rest

/-- Mustache rendering of a whole character list. -/
def mustacheRender (esc : JVal → String) (vars : VarMap) (s : List Char) : List Char :=
  renderF esc vars s.length s

/-- A path as written in an include directive or passed to the resolver:
either absolute or relative, as a list of segments. -/
structure FPath where
  isAbs : Bool
  segs : List String
deriving DecidableEq

/-- `path.resolve(base, p)`: an absolute path is used unchanged, a relative
one is resolved against `base` (an absolute directory, as a segment list). -/
def resolvePath (base : List String) (p : FPath) : List String :=
  if p.isAbs then p.segs else base ++ p.segs

/-- `path.dirname`: drop the last segment of an absolute path. -/
def dirnameP (p : List String) : List String := p.dropLast

/-- Split a character list into path segments at `/` characters. -/
def splitSegs : List Char → List Char → List String
  | [], acc => [String.mk acc.reverse]
  | c :: rest, acc =>
    if c = '/' then String.mk acc.reverse :: splitSegs rest []
    else splitSegs rest (c :: acc)

/-- Parse the textual `src` value of an include directive into a path: a
leading `/` makes it absolute. -/
def parseSrcPath (src : List Char) : FPath :=
  match src with
  | '/' :: rest => ⟨true, splitSegs rest []⟩
  | _ => ⟨false, splitSegs src []⟩

/-- A file system: absolute paths (segment lists) paired with file contents. -/
abbrev FileSys := List (List String × List Char)

/-- `fs.readFile`: `none` models the rejected promise for a missing file. -/
def readFS (fs : FileSys) (p : List String) : Option (List Char) :=
  (fs.find? (fun e => e.1 == p)).map (fun e => e.2)

/-- Drop a literal prefix from a character list, or fail. -/
def dropLit (lit : List Char) (s : List Char) : Option (List Char) :=
  if lit.isPrefixOf s then some (s.drop lit.length) else none

/-- Scan for the lazy closing of a paired include directive: the earliest
position where the literal close tag, optional whitespace and a final angle
bracket occur (`[\s\S]*?<\x2Finclude\s*>` of the source regex).  Returns the
number of characters consumed up to and including the final bracket. -/
def scanClose : List Char → Option Nat
  | [] => none
  | c :: rest =>
    match dropLit "</include".data (c :: rest) with
    | some t =>
      let w := t.takeWhile isWS
      match t.drop w.length with
      | '>' :: _ => some (9 + w.length + 1)
      | _ => (scanClose rest).map (· + 1)
    | none => (scanClose rest).map (· + 1)

/-- Attempt to match the include regex
`<include\s+src="([^"]+?)"\s*(?:\s*\x2F>|>[\s\S]*?<\x2Finclude\s*>)`
at the head of `s`.  On success, returns the length of the whole match and
the captured `src` group.  The regex is deterministic: after the literal
`<include` it needs at least one whitespace character and then the literal
`src="`; the lazy group runs to the first quote; then optional whitespace and
either a self-closing `/>` or a `>` with the earliest paired close tag. -/
def matchInclude (s : List Char) : Option (Nat × List Char) :=
  match dropLit "<include".data s with
  | none => none
  | some s1 =>
    let ws1 := s1.takeWhile isWS
    if ws1.isEmpty then none
    else
      match dropLit "src=\"".data (s1.drop ws1.length) with
      | none => none
      | some s3 =>
        let grp := s3.takeWhile (fun c => !(c = '"'))
        if grp.isEmpty then none
        else
          match s3.drop grp.length with
          | '"' :: s5 =>
            let ws2 := s5.takeWhile isWS
            let pre := 8 + ws1.length + 5 + grp.length + 1 + ws2.length
            match s5.drop ws2.length with
            | '/' :: '>' :: _ => some (pre + 2, grp)
            | '>' :: s7 =>
              match scanClose s7 with
              | some k => some (pre + 1 + k, grp)
              | none => none
            | _ => none
          | _ => none

/-- `includeRegex.exec(content)`: the leftmost match of the include regex.
Returns the start index, the length of the matched directive and the captured
`src` group. -/
def findInclude : List Char → Option (Nat × Nat × List Char)
  | [] => none
  | c :: rest =>
    match matchInclude (c :: rest) with
    | some (len, grp) => some (0, len, grp)
    | none => (findInclude rest).map (fun r => (r.1 + 1, r.2.1, r.2.2))

/-- Split a character list at the first occurrence of `pat` (the search of
`String.prototype.replace` with a string pattern): the part before the
occurrence and the part after it. -/
def splitFirst (pat : List Char) : List Char → Option (List Char × List Char)
  | [] => none
  | c :: rest =>
    if pat.isPrefixOf (c :: rest) then some ([], (c :: rest).drop pat.length)
    else (splitFirst pat rest).map (fun p => (c :: p.1, p.2))

/-- ECMAScript `GetSubstitution` for a string pattern (no capture groups):
in the replacement text, `$$` yields a dollar, `$&` the matched substring,
a dollar followed by a backquote the text before the match, a dollar
followed by a single quote the text after the match; anything else is copied
verbatim. -/
def getSubstitution (matched before after : List Char) : List Char → List Char
  | [] => []
  | c :: rest =>
    if c = '$' then
      match rest with
      | [] => ['$']
      | c2 :: rest2 =>
        if c2 = '$' then '$' :: getSubstitution matched before after rest2
        else if c2 = '&' then matched ++ getSubstitution matched before after rest2
        else if c2 = bqc then before ++ getSubstitution matched before after rest2
        else if c2 = sqc then after ++ getSubstitution matched before after rest2
        else '$' :: c2 :: getSubstitution matched before after rest2
    else c :: getSubstitution matched before after rest

/-- `s.replace(pat, repl)` with string arguments: replace the first
occurrence of `pat` in `s` by the substitution of `repl` (which interprets
the dollar patterns); `s` is returned unchanged when `pat` does not occur. -/
def jsReplace (s pat repl : List Char) : List Char :=
  match splitFirst pat s with
  | none => s
  | some (pre, post) => pre ++ getSubstitution pat pre post repl ++ post

/-- The failures of the resolver: fuel exhaustion (modelling divergence of
the unbounded JavaScript loop), a circular dependency carrying the chain of
in-flight absolute paths in visitation order, and an unreadable file. -/
inductive Err where
  | outOfFuel
  | circular (chain : List (List String))
  | fileNotFound (p : List String)
deriving DecidableEq

mutual
/-- The compiled string resolver `parseFML(relativePath, variables, options,
_currentlyProcessingPaths)`: resolve the requested path against the caller
directory, reject it if it is already on the in-flight ancestor chain
(`CircularDependencyError` with the chain in visitation order), read the
file, expand its include directives, and finally, when the supplied variable
mapping is non-empty, run one Mustache interpolation pass with the custom
escape over the assembled content.  Each recursive include receives its own
copy of the ancestor chain extended by this file's path. -/
def parseFML (fuel : Nat) (fs : FileSys) (vars : VarMap)
    (visiting : List (List String)) (base : List String) (rel : FPath) :
    Except Err (List Char) :=
  match fuel with
  | 0 => .error .outOfFuel
  | fuel' + 1 =>
    let abs := resolvePath base rel
    if abs ∈ visiting then .error (.circular (visiting ++ [abs]))
    else
      match readFS fs abs with
      | none => .error (.fileNotFound abs)
      | some content =>
        match expandLoop fuel' fs vars (visiting ++ [abs]) abs content with
        | .error e => .error e
        | .ok expanded =>
          if vars.isEmpty then .ok expanded
          else .ok (mustacheRender mustEscape vars expanded)

/-- The `while ((match = includeRegex.exec(currentContent)) !== null)` loop:
find the leftmost include directive, recursively resolve its target relative
to the current file's own directory, splice the resolved content over the
directive with `String.prototype.replace`, and re-scan the modified content
from the start. -/
def expandLoop (fuel : Nat) (fs : FileSys) (vars : VarMap)
    (visiting : List (List String)) (abs : List String) (content : List Char) :
    Except Err (List Char) :=
  match fuel with
  | 0 => .error .outOfFuel
  | fuel' + 1 =>
    match findInclude content with
    | none => .ok content
    | some (start, len, srcChars) =>
      let tag := (content.drop start).take len
      match parseFML fuel' fs vars visiting (dirnameP abs) (parseSrcPath srcChars) with
      | .error e => .error e
      | .ok inc => expandLoop fuel' fs vars visiting abs (jsReplace content tag inc)
end

mutual
/-- Modelled from the spec (for comparison with the implementation, claim
about single-pass interpolation): include expansion WITHOUT any variable
interpolation — "recursively expand that target (its own includes,
recursively, NOT yet interpolated)".  Identical to `parseFML` except that no
Mustache pass runs at any level. -/
def specExpand (fuel : Nat) (fs : FileSys) (visiting : List (List String))
    (base : List String) (rel : FPath) : Except Err (List Char) :=
  match fuel with
  | 0 => .error .outOfFuel
  | fuel' + 1 =>
    let abs := resolvePath base rel
    if abs ∈ visiting then .error (.circular (visiting ++ [abs]))
    else
      match readFS fs abs with
      | none => .error (.fileNotFound abs)
      | some content =>
        specExpandLoop fuel' fs (visiting ++ [abs]) abs content

/-- The include-replacement loop of the spec-side expander: as in the
implementation, but the spliced text is the target's uninterpolated
expansion. -/
def specExpandLoop (fuel : Nat) (fs : FileSys) (visiting : List (List String))
    (abs : List String) (content : List Char) : Except Err (List Char) :=
  match fuel with
  | 0 => .error .outOfFuel
  | fuel' + 1 =>
    match findInclude content with
    | none => .ok content
    | some (start, len, srcChars) =>
      let tag := (content.drop start).take len
      match specExpand fuel' fs visiting (dirnameP abs) (parseSrcPath srcChars) with
      | .error e => .error e
      | .ok inc => specExpandLoop fuel' fs visiting abs (jsReplace content tag inc)
end

/-- Modelled from the spec: "Variable interpolation runs exactly once, after
the entire include tree for a document is expanded" — full expansion with no
interpolation, followed by a single final Mustache pass (skipped when no
variables are supplied). -/
def singlePassResolve (fuel : Nat) (fs : FileSys) (vars : VarMap)
    (base : List String) (rel : FPath) : Except Err (List Char) :=
  match specExpand fuel fs [] base rel with
  | .error e => .error e
  | .ok t => if vars.isEmpty then .ok t else .ok (mustacheRender mustEscape vars t)

/-- Divergence of the resolver in the fuel model: every fuel budget is
exhausted, i.e. the JavaScript original never finishes. -/
def neverTerminates (fs : FileSys) (vars : VarMap) (base : List String)
    (rel : FPath) : Prop :=
  ∀ fuel, parseFML fuel fs vars [] base rel = .error .outOfFuel

/-- A role-tagged conversational message, as produced by the structural
extractor (`PromptMessage` in `src/parser.ts`). -/
structure PromptMessage where
  role : String
  content : String
deriving DecidableEq

/-- The `interpolate` helper of `src/parser.ts`: `Mustache.render(content,
variables)` with Mustache's default (HTML) escape. -/
def interpolate (content : String) (vars : VarMap) : String :=
  String.mk (mustacheRender defaultEscape vars content.data)

/-- The roles recognised by the structural extractor, in the fixed order the
source iterates them. -/
def supportedRoles : List String := ["system", "user", "assistant"]

/-- The xml2js view of a document used by the extractor: an ordered list of
top-level (tag, text) pairs.  `xmlBlocks doc tag` models reading
`resolved[tag]` and normalising it with the `Array.isArray` check of the
source: the text of every top-level block with that tag, in document order
(xml2js with `explicitArray: false` yields one string for a single block and
an ordered array for several; blocks carrying attributes yield their text
under `_`, which the source also reads). -/
def xmlBlocks (doc : List (String × String)) (tag : String) : List String :=
  (doc.filter (fun p => p.1 == tag)).map (fun p => p.2)

/-- The structural extractor of `src/parser.ts` (its `parseFML`, lines
49–73): iterate the supported roles in their fixed order and, for each, emit
one interpolated message per block of that role. -/
def extractMessages (doc : List (String × String)) (vars : VarMap) :
    List PromptMessage :=
  supportedRoles.flatMap (fun role =>
    (xmlBlocks doc role).map (fun c => ⟨role, interpolate c vars⟩))

/-- The messages the extractor emits for one role. -/
def msgsOfRole (doc : List (String × String)) (vars : VarMap) (r : String) :
    List PromptMessage :=
  (xmlBlocks doc r).map (fun c => ⟨r, interpolate c vars⟩)

/-! ### Concrete file systems used by the claims -/

/-- C1: `a.fml` includes `b.fml`; `b.fml` is a single placeholder. -/
def fsC1 : FileSys :=
  [ (["r", "a.fml"], "<include src=\"b.fml\"/>".data),
    (["r", "b.fml"], "\x7b\x7bv\x7d\x7d".data) ]

/-- C1: the value of `v` itself contains placeholder syntax. -/
def varsC1 : VarMap := [("v", .str "\x7b\x7bw\x7d\x7d"), ("w", .str "X")]

/-- C2 (cycle): `a.fml` includes `b.fml` and `b.fml` includes `a.fml`. -/
def fsC2cyc : FileSys :=
  [ (["r", "a.fml"], "<include src=\"b.fml\"/>".data),
    (["r", "b.fml"], "<include src=\"a.fml\"/>".data) ]

/-- C2 (diamond): `d.fml` is reached twice via unrelated branches. -/
def fsC2dia : FileSys :=
  [ (["r", "a.fml"], "<include src=\"b.fml\"/><include src=\"c.fml\"/>".data),
    (["r", "b.fml"], "<include src=\"d.fml\"/>".data),
    (["r", "c.fml"], "<include src=\"d.fml\"/>".data),
    (["r", "d.fml"], "D".data) ]

/-- C3: two-level nesting; the decoy `r/y.fml` must NOT be picked up, the
nested include must resolve against its own directory `r/sub`. -/
def fsC3 : FileSys :=
  [ (["r", "a.fml"], "<include src=\"sub/x.fml\"/>".data),
    (["r", "sub", "x.fml"], "<include src=\"y.fml\"/>".data),
    (["r", "sub", "y.fml"], "GOOD".data),
    (["r", "y.fml"], "WRONG".data) ]

/-- C3: an absolute `src`; the decoy at `r/abs/z.fml` must NOT be picked up,
the absolute path `/abs/z.fml` is used unchanged. -/
def fsC3abs : FileSys :=
  [ (["r", "a2.fml"], "<include src=\"/abs/z.fml\"/>".data),
    (["abs", "z.fml"], "Z".data),
    (["r", "abs", "z.fml"], "WRONG".data) ]

/-- C4: two sibling includes with surrounding markers. -/
def fsC4 : FileSys :=
  [ (["r", "a.fml"], "1<include src=\"b.fml\"/>2<include src=\"c.fml\"/>3".data),
    (["r", "b.fml"], "B".data),
    (["r", "c.fml"], "C".data) ]

/-- C4 (re-scan from the start): splicing `b.fml`'s content in front of the
leftover text `src="c.fml"/>` re-assembles a new include directive, which the
restarted scan then picks up. -/
def fsC4r : FileSys :=
  [ (["r", "a.fml"], "<include src=\"b.fml\"/>src=\"c.fml\"/>".data),
    (["r", "b.fml"], "<include ".data),
    (["r", "c.fml"], "hello".data) ]

/-- C5/C10 helper: the directive text of `a.fml` in `fsC5`. -/
def tagC5 : List Char := "<include src=\"b.fml\"/>".data

/-- C5: the included file's content is the replacement pattern `$&`, which
`String.prototype.replace` expands back into the matched directive — the
loop never makes progress. -/
def fsC5 : FileSys :=
  [ (["r", "a.fml"], "<include src=\"b.fml\"/>".data),
    (["r", "b.fml"], "$&".data) ]

/-- C6: a document with an object-valued and a scalar placeholder. -/
def fsC6 : FileSys :=
  [ (["r", "m.fml"], "A \x7b\x7b obj \x7d\x7d B \x7b\x7b s \x7d\x7d".data) ]

/-- C6: `obj` is the object `\x7bid: 1\x7d`; `s` is a scalar containing
markup characters (which must stay unescaped). -/
def varsC6 : VarMap :=
  [ ("obj", .obj (.cons "id" (.num 1) .nil)),
    ("s", .str "<b>&\"q\"") ]

/-- C8: an include-like tag whose `src` value is not parsable (unquoted);
the target file exists but is never read. -/
def fsC8 : FileSys :=
  [ (["r", "m.fml"], "before <include src=b.fml /> after".data),
    (["r", "b.fml"], "B".data) ]

/-- C8: an include-like tag with no `src` at all. -/
def fsC8b : FileSys :=
  [ (["r", "m.fml"], "x <include/> y".data) ]

/-- C9: a document that is a single placeholder absent from any mapping. -/
def fsC9 : FileSys :=
  [ (["r", "m.fml"], "\x7b\x7b missing \x7d\x7d".data) ]

/-- C10: the included file's fully expanded content contains `$$`, which the
splice via `String.prototype.replace` collapses to a single dollar. -/
def fsC10 : FileSys :=
  [ (["r", "a.fml"], "<include src=\"b.fml\"/>".data),
    (["r", "b.fml"], "a$$b".data) ]

/-- C7: a document whose `user` block appears before its `system` block. -/
def docC7 : List (String × String) := [("user", "U"), ("system", "S")]

/-! ### Helper lemmas -/

/-- A replacement string without any dollar character is substituted
verbatim by `GetSubstitution`. -/
theorem getSubstitution_no_dollar (matched before after : List Char) :
    ∀ repl : List Char, '$' ∉ repl →
      getSubstitution matched before after repl = repl := by
  intro repl
  induction repl with
  | nil => intro _; rfl
  | cons c rest ih =>
    intro h
    have hc : ¬(c = '$') := fun hh => h (hh ▸ List.mem_cons_self c rest)
    have hr : '$' ∉ rest := fun hh => h (List.mem_cons_of_mem c hh)
    rw [getSubstitution.eq_def]
    dsimp only
    rw [if_neg hc]
    exact congrArg (c :: ·) (ih hr)

/-- Every successful match of the include regex captures a non-empty `src`
group (the group pattern requires at least one character). -/
theorem matchInclude_src_ne_nil (s : List Char) (len : Nat) (grp : List Char) :
    matchInclude s = some (len, grp) → grp ≠ [] := by
  intro h
  unfold matchInclude at h
  split at h
  · exact absurd h (by simp)
  · dsimp only at h
    split at h
    · exact absurd h (by simp)
    · split at h
      · exact absurd h (by simp)
      · split at h
        · exact absurd h (by simp)
        · rename_i hgrp
          split at h
          · split at h
            · injection h with h1
              injection h1 with h2 h3
              subst h3
              simpa using hgrp
            · split at h
              · injection h with h1
                injection h1 with h2 h3
                subst h3
                simpa using hgrp
              · exact absurd h (by simp)
            · exact absurd h (by simp)
          · exact absurd h (by simp)

/-- The `src` group of the leftmost include match is never empty. -/
theorem findInclude_src_ne_nil :
    ∀ (s : List Char) (i len : Nat) (grp : List Char),
      findInclude s = some (i, len, grp) → grp ≠ [] := by
  intro s
  induction s with
  | nil => intro i len grp h; exact absurd h (by simp [findInclude])
  | cons c rest ih =>
    intro i len grp h
    rw [findInclude] at h
    split at h
    · rename_i len' grp' hm
      injection h with h1
      injection h1 with h2 h3
      injection h3 with h4 h5
      subst h5
      exact matchInclude_src_ne_nil _ _ _ hm
    · rename_i hm
      simp only [Option.map_eq_some'] at h
      obtain ⟨⟨i', len', grp'⟩, hf, heq⟩ := h
      injection heq with h2 h3
      injection h3 with h4 h5
      subst h5
      exact ih _ _ _ hf

/-- `findInclude` returns the LEFTMOST match: the regex matches at no
earlier position of the scanned text. -/
theorem findInclude_leftmost :
    ∀ (s : List Char) (i len : Nat) (grp : List Char),
      findInclude s = some (i, len, grp) →
      ∀ j, j < i → matchInclude (s.drop j) = none := by
  intro s
  induction s with
  | nil => intro i len grp h; exact absurd h (by simp [findInclude])
  | cons c rest ih =>
    intro i len grp h j hj
    rw [findInclude] at h
    split at h
    · rename_i len' grp' hm
      injection h with h1
      injection h1 with h2 h3
      omega
    · rename_i hm
      simp only [Option.map_eq_some'] at h
      obtain ⟨⟨i', len', grp'⟩, hf, heq⟩ := h
      injection heq with h2 h3
      subst h2
      cases j with
      | zero => simpa using hm
      | succ j' =>
        have := ih _ _ _ hf j' (by omega)
        simpa using this

/-- Any `circular` error produced at any fuel carries a chain whose final
path already occurs earlier in the chain: the error arises only from a
genuine repetition inside one ancestor chain. -/
theorem chainRepeatAux :
    ∀ fuel : Nat,
      (∀ fs vars visiting base rel chain,
        parseFML fuel fs vars visiting base rel = .error (.circular chain) →
        ∃ pre dup, chain = pre ++ [dup] ∧ dup ∈ pre) ∧
      (∀ fs vars visiting abs content chain,
        expandLoop fuel fs vars visiting abs content = .error (.circular chain) →
        ∃ pre dup, chain = pre ++ [dup] ∧ dup ∈ pre) := by
  intro fuel
  induction fuel with
  | zero =>
    constructor
    · intro fs vars visiting base rel chain h
      exact absurd h (by rw [parseFML]; simp)
    · intro fs vars visiting abs content chain h
      exact absurd h (by rw [expandLoop]; simp)
  | succ n ih =>
    obtain ⟨ihP, ihL⟩ := ih
    constructor
    · intro fs vars visiting base rel chain h
      rw [parseFML] at h
      try dsimp only at h
      split at h
      · rename_i hmem
        injection h with h1
        injection h1 with h2
        exact ⟨visiting, resolvePath base rel, h2.symm, hmem⟩
      · split at h
        · exact absurd h (by simp)
        · split at h
          · rename_i e heq
            injection h with h1
            subst h1
            exact ihL _ _ _ _ _ _ heq
          · split at h
            · exact absurd h (by simp)
            · exact absurd h (by simp)
    · intro fs vars visiting abs content chain h
      rw [expandLoop] at h
      try dsimp only at h
      split at h
      · exact absurd h (by simp)
      · split at h
        · rename_i e heq
          injection h with h1
          subst h1
          exact ihP _ _ _ _ _ _ heq
        · exact ihL _ _ _ _ _ _ h

/-- Structure of one successful level of the resolver when variables are
supplied: the result is exactly the Mustache interpolation of THIS level's
fully include-expanded content — so every recursive call (in particular the
one producing an included file's splice text) has already interpolated its
own content before returning it to its parent. -/
theorem parseFML_succ_map (fuel : Nat) (fs : FileSys) (vars : VarMap)
    (visiting : List (List String)) (base : List String) (rel : FPath)
    (content : List Char)
    (hvars : vars ≠ [])
    (hmem : resolvePath base rel ∉ visiting)
    (hread : readFS fs (resolvePath base rel) = some content) :
    parseFML (fuel + 1) fs vars visiting base rel =
      Except.map (fun expanded => mustacheRender mustEscape vars expanded)
        (expandLoop fuel fs vars (visiting ++ [resolvePath base rel])
          (resolvePath base rel) content) := by
  rw [parseFML]
  rw [if_neg hmem, hread]
  dsimp only
  have hne : vars.isEmpty = false := by
    cases vars with
    | nil => exact absurd rfl hvars
    | cons a l => rfl
  simp only [hne, Bool.false_eq_true, if_false]
  split
  · rename_i e heq
    rw [heq]
    rfl
  · rename_i expanded heq
    rw [heq]
    rfl

/-- C5 helper: resolving `b.fml` of `fsC5` either exhausts its fuel or
yields the two-character content, the replacement pattern. -/
theorem parseC5_b (m : Nat) :
    parseFML m fsC5 [] [["r", "a.fml"]] ["r"] ⟨false, ["b.fml"]⟩ = .error .outOfFuel ∨
    parseFML m fsC5 [] [["r", "a.fml"]] ["r"] ⟨false, ["b.fml"]⟩ = .ok "$&".data := by
  match m with
  | 0 => exact Or.inl rfl
  | 1 => exact Or.inl rfl
  | m' + 2 => exact Or.inr rfl

/-- C5 helper: the replacement loop on the directive text of `fsC5` makes no
progress — splicing `$&` reconstructs the directive — so it exhausts every
fuel budget. -/
theorem expandC5_diverges :
    ∀ n : Nat,
      expandLoop n fsC5 [] [["r", "a.fml"]] ["r", "a.fml"] tagC5 = .error .outOfFuel := by
  intro n
  induction n with
  | zero => rfl
  | succ n ih =>
    have hstep :
        expandLoop (n + 1) fsC5 [] [["r", "a.fml"]] ["r", "a.fml"] tagC5 =
          match parseFML n fsC5 [] [["r", "a.fml"]] ["r"] ⟨false, ["b.fml"]⟩ with
          | .error e => .error e
          | .ok inc =>
              expandLoop n fsC5 [] [["r", "a.fml"]] ["r", "a.fml"]
                (jsReplace tagC5 tagC5 inc) := rfl
    rw [hstep]
    rcases parseC5_b n with hb | hb
    · rw [hb]
    · rw [hb]
      exact ih

/-- C5 helper: resolving `a.fml` of `fsC5` exhausts every fuel budget. -/
theorem parseC5_diverges :
    ∀ n : Nat,
      parseFML n fsC5 [] [] ["r"] ⟨false, ["a.fml"]⟩ = .error .outOfFuel := by
  intro n
  match n with
  | 0 => rfl
  | n' + 1 =>
    have hstep :
        parseFML (n' + 1) fsC5 [] [] ["r"] ⟨false, ["a.fml"]⟩ =
          match expandLoop n' fsC5 [] [["r", "a.fml"]] ["r", "a.fml"] tagC5 with
          | .error e => .error e
          | .ok expanded => .ok expanded := rfl
    rw [hstep, expandC5_diverges n']

/-- The extractor output is the concatenation of the per-role message lists
in the fixed role order of the source. -/
theorem extractMessages_grouped (doc : List (String × String)) (vars : VarMap) :
    extractMessages doc vars =
      msgsOfRole doc vars "system" ++ msgsOfRole doc vars "user" ++
        msgsOfRole doc vars "assistant" := by
  simp [extractMessages, supportedRoles, msgsOfRole, List.flatMap]

/-- Filtering one role's messages by a role name keeps all of them or none
of them, depending on whether the names agree. -/
theorem filter_msgsOfRole (doc : List (String × String)) (vars : VarMap)
    (r1 r2 : String) :
    (msgsOfRole doc vars r1).filter (fun m => m.role == r2) =
      if r1 == r2 then msgsOfRole doc vars r1 else [] := by
  unfold msgsOfRole
  rw [List.filter_map]
  cases h : (r1 == r2) with
  | true =>
    simp only [if_pos]
    have : ((fun m : PromptMessage => m.role == r2) ∘
        (fun c => (⟨r1, interpolate c vars⟩ : PromptMessage))) = fun _ => true := by
      funext c
      simp [h]
    rw [this, List.filter_true]
  | false =>
    have : ((fun m : PromptMessage => m.role == r2) ∘
        (fun c => (⟨r1, interpolate c vars⟩ : PromptMessage))) = fun _ => false := by
      funext c
      simp [h]
    rw [this, List.filter_false]
    simp [h]

/-- Within each supported role, the extractor emits exactly the blocks of
that role, as distinct messages in document order. -/
theorem extractMessages_role_order (doc : List (String × String)) (vars : VarMap)
    (r : String) (hr : r ∈ supportedRoles) :
    (extractMessages doc vars).filter (fun m => m.role == r) =
      msgsOfRole doc vars r := by
  rw [extractMessages_grouped, List.filter_append, List.filter_append,
    filter_msgsOfRole, filter_msgsOfRole, filter_msgsOfRole]
  fin_cases hr <;> simp

/-! ### Claim theorems -/

/-- C1 (counterexample): interpolation is NOT performed exactly once after
the whole include tree is expanded.  On `fsC1` (where the value of `v` is
itself placeholder syntax) the implementation yields `X` — the included
file's text was interpolated in the recursive call, spliced, and the
substituted text was interpolated AGAIN at the root — while the spec-side
single-final-pass resolution yields the placeholder text unchanged. -/
theorem claimC1_counterexample :
    parseFML 9 fsC1 varsC1 [] ["r"] ⟨false, ["a.fml"]⟩ = .ok "X".data ∧
    singlePassResolve 9 fsC1 varsC1 ["r"] ⟨false, ["a.fml"]⟩ =
      .ok "\x7b\x7bw\x7d\x7d".data ∧
    ("X".data : List Char) ≠ "\x7b\x7bw\x7d\x7d".data :=
  ⟨rfl, rfl, by decide⟩

/-- C1 (amended): interpolation runs once per recursion level — every
successful level of the resolver returns the Mustache interpolation of its
OWN fully include-expanded content (so an included file's text is
interpolated before it is spliced into its parent, and text introduced by
substitution can be substituted again at ancestor levels).  Concretely, in
`fsC1` the recursive call for the included `b.fml` already returns the
interpolated text, and the root interpolates the spliced result again. -/
theorem claimC1_theorem :
    (∀ (fuel : Nat) (fs : FileSys) (vars : VarMap)
        (visiting : List (List String)) (base : List String) (rel : FPath)
        (content : List Char),
      vars ≠ [] →
      resolvePath base rel ∉ visiting →
      readFS fs (resolvePath base rel) = some content →
      parseFML (fuel + 1) fs vars visiting base rel =
        Except.map (fun expanded => mustacheRender mustEscape vars expanded)
          (expandLoop fuel fs vars (visiting ++ [resolvePath base rel])
            (resolvePath base rel) content)) ∧
    parseFML 7 fsC1 varsC1 [["r", "a.fml"]] ["r"] ⟨false, ["b.fml"]⟩ =
      .ok "\x7b\x7bw\x7d\x7d".data ∧
    parseFML 9 fsC1 varsC1 [] ["r"] ⟨false, ["a.fml"]⟩ = .ok "X".data :=
  ⟨fun fuel fs vars visiting base rel content hvars hmem hread =>
    parseFML_succ_map fuel fs vars visiting base rel content hvars hmem hread,
   rfl, rfl⟩

/-- C1 (witness): the general per-level statement applied to the root call
of the `fsC1` resolution. -/
theorem claimC1_witness :
    parseFML 9 fsC1 varsC1 [] ["r"] ⟨false, ["a.fml"]⟩ =
      Except.map (fun expanded => mustacheRender mustEscape varsC1 expanded)
        (expandLoop 8 fsC1 varsC1 [["r", "a.fml"]] ["r", "a.fml"]
          "<include src=\"b.fml\"/>".data) :=
  claimC1_theorem.1 8 fsC1 varsC1 [] ["r"] ⟨false, ["a.fml"]⟩
    "<include src=\"b.fml\"/>".data (by decide) (by simp) rfl

/-- C2: a `circular` error always carries a chain whose last path repeats a
path already on the chain (a repetition within one ancestor chain, in
visitation order); the concrete two-file cycle of `fsC2cyc` fails with the
chain `a -> b -> a`; and the diamond `fsC2dia`, whose `d.fml` is included
from two unrelated branches, resolves successfully because every branch
works on its own copy of the ancestor chain. -/
theorem claimC2_theorem :
    (∀ (fuel : Nat) (fs : FileSys) (vars : VarMap)
        (visiting : List (List String)) (base : List String) (rel : FPath)
        (chain : List (List String)),
      parseFML fuel fs vars visiting base rel = .error (.circular chain) →
      ∃ pre dup, chain = pre ++ [dup] ∧ dup ∈ pre) ∧
    parseFML 9 fsC2cyc [] [] ["r"] ⟨false, ["a.fml"]⟩ =
      .error (.circular [["r", "a.fml"], ["r", "b.fml"], ["r", "a.fml"]]) ∧
    parseFML 9 fsC2dia [] [] ["r"] ⟨false, ["a.fml"]⟩ = .ok "DD".data :=
  ⟨fun fuel fs vars visiting base rel chain h =>
    (chainRepeatAux fuel).1 fs vars visiting base rel chain h,
   rfl, rfl⟩

/-- C2 (witness): the general chain-repetition statement applied to the
concrete cycle, whose chain `a -> b -> a` indeed ends in a repeated path. -/
theorem claimC2_witness :
    ∃ pre dup,
      ([["r", "a.fml"], ["r", "b.fml"], ["r", "a.fml"]] : List (List String)) =
        pre ++ [dup] ∧ dup ∈ pre :=
  claimC2_theorem.1 9 fsC2cyc [] [] ["r"] ⟨false, ["a.fml"]⟩
    [["r", "a.fml"], ["r", "b.fml"], ["r", "a.fml"]] rfl

/-- C3: a relative include `src` is resolved against the directory of the
document that contains the directive (the nested `y.fml` of `fsC3` resolves
to `r/sub/y.fml`, not to the root-level decoy `r/y.fml` which exists with
different content), and an absolute `src` is used unchanged (`/abs/z.fml` of
`fsC3abs` is read from `abs/z.fml`, not from the relative decoy
`r/abs/z.fml`). -/
theorem claimC3_theorem :
    (∀ (base : List String) (segs : List String),
      resolvePath base ⟨true, segs⟩ = segs) ∧
    (∀ (base : List String) (segs : List String),
      resolvePath base ⟨false, segs⟩ = base ++ segs) ∧
    parseFML 9 fsC3 [] [] ["r"] ⟨false, ["a.fml"]⟩ = .ok "GOOD".data ∧
    readFS fsC3 ["r", "y.fml"] = some "WRONG".data ∧
    parseFML 9 fsC3abs [] [] ["r"] ⟨false, ["a2.fml"]⟩ = .ok "Z".data ∧
    readFS fsC3abs ["r", "abs", "z.fml"] = some "WRONG".data :=
  ⟨fun _ _ => rfl, fun _ _ => rfl, rfl, rfl, rfl, rfl⟩

/-- C4: the scanner always takes the LEFTMOST remaining directive (no match
of the regex exists at any earlier position), so sibling includes are
replaced in left-to-right textual order (`fsC4` yields `1B2C3`), and the
scan restarts from the beginning of the modified text after each
replacement (in `fsC4r`, the spliced content together with the leftover
text re-assembles a new directive, which the restarted scan then picks up
and resolves to `hello`). -/
theorem claimC4_theorem :
    (∀ (s : List Char) (i len : Nat) (grp : List Char),
      findInclude s = some (i, len, grp) →
      ∀ j, j < i → matchInclude (s.drop j) = none) ∧
    parseFML 9 fsC4 [] [] ["r"] ⟨false, ["a.fml"]⟩ = .ok "1B2C3".data ∧
    parseFML 9 fsC4r [] [] ["r"] ⟨false, ["a.fml"]⟩ = .ok "hello".data :=
  ⟨findInclude_leftmost, rfl, rfl⟩

/-- C4 (witness): the leftmost-match statement applied to a text whose
directive starts at index 1: the regex does not match at index 0. -/
theorem claimC4_witness :
    matchInclude (List.drop 0 " <include src=\"b\"/>".data) = none :=
  claimC4_theorem.1 " <include src=\"b\"/>".data 1 18 "b".data rfl 0 (by decide)

/-- C5 (counterexample): resolution does NOT terminate on every finite file
system.  On `fsC5` — `a.fml` includes `b.fml`, whose content is the
replacement pattern `$&` — every fuel budget is exhausted: splicing with
`String.prototype.replace` reconstructs the directive, so the re-scan loop
never makes progress. -/
theorem claimC5_counterexample :
    neverTerminates fsC5 [] ["r"] ⟨false, ["a.fml"]⟩ :=
  parseC5_diverges

/-- C5 (amended): spliced-in content is not always fully resolved — the
splice is a `String.prototype.replace` whose replacement patterns can
reconstruct the include directive (`jsReplace` of the `fsC5` directive with
replacement `$&` yields the directive again), and on such input the
re-scan-after-replace loop exhausts every fuel budget, i.e. runs forever. -/
theorem claimC5_theorem :
    jsReplace tagC5 tagC5 "$&".data = tagC5 ∧
    (∀ n : Nat,
      expandLoop n fsC5 [] [["r", "a.fml"]] ["r", "a.fml"] tagC5 =
        .error .outOfFuel) :=
  ⟨rfl, expandC5_diverges⟩

/-- C6: the custom escape of the compiled `parseFML` substitutes structured
values (objects and arrays) as pretty-printed, two-space-indented JSON and
every other value by plain string conversion with no escaping; concretely,
resolving `fsC6` renders the object variable as indented JSON and leaves
the markup characters of the scalar variable untouched. -/
theorem claimC6_theorem :
    (∀ xs : JArr, mustEscape (.arr xs) = jsonStringify 0 (.arr xs)) ∧
    (∀ fields : JObj, mustEscape (.obj fields) = jsonStringify 0 (.obj fields)) ∧
    (∀ s : String, mustEscape (.str s) = s) ∧
    (∀ n : Int, mustEscape (.num n) = toString n) ∧
    (∀ b : Bool, mustEscape (.bool b) = if b then "true" else "false") ∧
    parseFML 9 fsC6 varsC6 [] ["r"] ⟨false, ["m.fml"]⟩ =
      .ok "A \x7b\n  \"id\": 1\n\x7d B <b>&\"q\"".data :=
  ⟨fun _ => rfl, fun _ => rfl, fun _ => rfl, fun _ => rfl, fun _ => rfl, rfl⟩

/-- C7 (counterexample): the extractor does NOT order messages by document
appearance.  In `docC7` the `user` block appears before the `system` block,
yet the extractor returns the `system` message first. -/
theorem claimC7_counterexample :
    extractMessages docC7 [] =
      [⟨"system", "S"⟩, ⟨"user", "U"⟩] ∧
    ([⟨"system", "S"⟩, ⟨"user", "U"⟩] : List PromptMessage) ≠
      [⟨"user", "U"⟩, ⟨"system", "S"⟩] :=
  ⟨rfl, by decide⟩

/-- C7 (amended): the extractor groups messages by role in the fixed source
order `system`, `user`, `assistant` regardless of cross-role document order;
within each supported role, multiple blocks of that role become distinct
messages ordered by their appearance in the document. -/
theorem claimC7_theorem :
    (∀ (doc : List (String × String)) (vars : VarMap),
      extractMessages doc vars =
        msgsOfRole doc vars "system" ++ msgsOfRole doc vars "user" ++
          msgsOfRole doc vars "assistant") ∧
    (∀ (doc : List (String × String)) (vars : VarMap) (r : String),
      r ∈ supportedRoles →
      (extractMessages doc vars).filter (fun m => m.role == r) =
        msgsOfRole doc vars r) :=
  ⟨extractMessages_grouped, extractMessages_role_order⟩

/-- C7 (witness): the within-role statement applied to the concrete
document `docC7` and the role `user`. -/
theorem claimC7_witness :
    (extractMessages docC7 []).filter (fun m => m.role == "user") =
      msgsOfRole docC7 [] "user" :=
  claimC7_theorem.2 docC7 [] "user" (by simp [supportedRoles])

/-- C8 (counterexample): a matched-looking directive lacking a parsable
`src` value does NOT make resolution fail with any error.  The document of
`fsC8` contains `<include src=b.fml />` (unquoted `src`); resolution
succeeds, returns the text verbatim, and never reads the existing target
`b.fml`. -/
theorem claimC8_counterexample :
    parseFML 9 fsC8 [] [] ["r"] ⟨false, ["m.fml"]⟩ =
      .ok "before <include src=b.fml /> after".data ∧
    readFS fsC8 ["r", "b.fml"] = some "B".data :=
  ⟨rfl, rfl⟩

/-- C8 (amended): a directive lacking a parsable quoted `src` value is never
matched at all — every match of the include scanner carries a non-empty
`src` group — and such a directive is preserved verbatim in the output with
no error (the implementation has no `MalformedDirectiveError`): the
`<include/>` of `fsC8b` passes through unchanged. -/
theorem claimC8_theorem :
    (∀ (s : List Char) (i len : Nat) (grp : List Char),
      findInclude s = some (i, len, grp) → grp ≠ []) ∧
    parseFML 9 fsC8b [] [] ["r"] ⟨false, ["m.fml"]⟩ =
      .ok "x <include/> y".data :=
  ⟨findInclude_src_ne_nil, rfl⟩

/-- C8 (witness): the non-empty-src statement applied to a concrete matched
directive. -/
theorem claimC8_witness : ("b.fml".data : List Char) ≠ [] :=
  claimC8_theorem.1 "<include src=\"b.fml\"/>".data 0 22 "b.fml".data rfl

/-- C9 (counterexample): with a SUPPLIED but empty variable mapping, the
interpolation pass is skipped entirely, so the absent placeholder of `fsC9`
is preserved verbatim instead of rendering as the empty string. -/
theorem claimC9_counterexample :
    parseFML 9 fsC9 [] [] ["r"] ⟨false, ["m.fml"]⟩ =
      .ok "\x7b\x7b missing \x7d\x7d".data ∧
    ("\x7b\x7b missing \x7d\x7d".data : List Char) ≠ [] :=
  ⟨rfl, by decide⟩

/-- C9 (amended): for every NON-EMPTY supplied variable mapping in which the
name is absent, the placeholder `\x7b\x7b missing \x7d\x7d` renders as the
empty string and no error is raised (the resolver returns successfully). -/
theorem claimC9_theorem (vars : VarMap) (hvars : vars ≠ [])
    (hlk : lookupVar vars "missing" = none) :
    parseFML 9 fsC9 vars [] ["r"] ⟨false, ["m.fml"]⟩ = .ok [] := by
  cases vars with
  | nil => exact absurd rfl hvars
  | cons v vs =>
    have h1 : parseFML 9 fsC9 (v :: vs) [] ["r"] ⟨false, ["m.fml"]⟩ =
        .ok (mustacheRender mustEscape (v :: vs) "\x7b\x7b missing \x7d\x7d".data) := rfl
    have h2 : mustacheRender mustEscape (v :: vs) "\x7b\x7b missing \x7d\x7d".data =
        renderEmit mustEscape (v :: vs) " missing ".data ++ [] := rfl
    have h3 : renderEmit mustEscape (v :: vs) " missing ".data = [] := by
      unfold renderEmit
      rw [show String.mk (trimChars " missing ".data) = "missing" from rfl, hlk]
    rw [h1, h2, h3]
    rfl

/-- C9 (witness): the amended statement applied to a concrete non-empty
mapping that lacks the name `missing`. -/
theorem claimC9_witness :
    parseFML 9 fsC9 [("other", JVal.str "x")] [] ["r"] ⟨false, ["m.fml"]⟩ =
      .ok [] :=
  claimC9_theorem [("other", JVal.str "x")] (by decide) rfl

/-- C10: the spliced text equals the target's fully expanded content when
that content is free of dollar patterns (a dollar-free replacement passes
through `GetSubstitution` verbatim), but not in general: in `fsC10` the
target's fully expanded content is `a$$b`, while the text spliced for the
directive — the splice being a `String.prototype.replace` — is `a$b`. -/
theorem claimC10_theorem :
    (∀ (matched before after repl : List Char), '$' ∉ repl →
      getSubstitution matched before after repl = repl) ∧
    parseFML 9 fsC10 [] [] ["r"] ⟨false, ["b.fml"]⟩ = .ok "a$$b".data ∧
    parseFML 9 fsC10 [] [] ["r"] ⟨false, ["a.fml"]⟩ = .ok "a$b".data ∧
    ("a$b".data : List Char) ≠ "a$$b".data :=
  ⟨getSubstitution_no_dollar, rfl, rfl, by decide⟩

/-- C10 (witness): the dollar-free statement applied to a concrete
replacement. -/
theorem claimC10_witness :
    getSubstitution "m".data "b".data "a".data "abc".data = "abc".data :=
  claimC10_theorem.1 "m".data "b".data "a".data "abc".data (by decide)

/-- Fuel is conservative: a result that is not fuel exhaustion is unchanged
by one more unit of fuel (for the resolver and for its replacement loop).
This justifies reading "fuel exhaustion at every fuel" as divergence of the
unbounded JavaScript original. -/
theorem fuelMonoAux :
    ∀ fuel : Nat,
      (∀ fs vars visiting base rel,
        parseFML fuel fs vars visiting base rel ≠ .error .outOfFuel →
        parseFML (fuel + 1) fs vars visiting base rel =
          parseFML fuel fs vars visiting base rel) ∧
      (∀ fs vars visiting abs content,
        expandLoop fuel fs vars visiting abs content ≠ .error .outOfFuel →
        expandLoop (fuel + 1) fs vars visiting abs content =
          expandLoop fuel fs vars visiting abs content) := by
  intro fuel
  induction fuel with
  | zero =>
    constructor
    · intro fs vars visiting base rel h
      exact absurd rfl h
    · intro fs vars visiting abs content h
      exact absurd rfl h
  | succ n ih =>
    obtain ⟨ihP, ihL⟩ := ih
    constructor
    · intro fs vars visiting base rel h
      rw [parseFML] at h
      rw [parseFML]
      conv_rhs => rw [parseFML]
      split
      · rfl
      · rename_i hmem
        split
        · rfl
        · rename_i content hread
          have hloop : expandLoop n fs vars (visiting ++ [resolvePath base rel])
              (resolvePath base rel) content ≠ .error .outOfFuel := by
            intro hbad
            apply h
            rw [if_neg hmem, hread]
            dsimp only
            rw [hbad]
          rw [ihL _ _ _ _ _ hloop]
    · intro fs vars visiting abs content h
      rw [expandLoop] at h
      rw [expandLoop]
      conv_rhs => rw [expandLoop]
      split
      · rfl
      · rename_i start len srcChars hfind
        dsimp only
        have hchild : parseFML n fs vars visiting (dirnameP abs)
            (parseSrcPath srcChars) ≠ .error .outOfFuel := by
          intro hbad
          apply h
          rw [hfind]
          dsimp only
          rw [hbad]
        rw [ihP _ _ _ _ _ hchild]
        split
        · rfl
        · rename_i inc hinc
          have hrec : expandLoop n fs vars visiting abs
              (jsReplace content ((content.drop start).take len) inc) ≠
                .error .outOfFuel := by
            intro hbad
            apply h
            rw [hfind]
            dsimp only
            rw [hinc]
            exact hbad
          exact ihL _ _ _ _ _ hrec

/-- Fuel is conservative over any number of extra units: once the resolver
settles (success or a genuine error), every larger fuel gives the same
result. -/
theorem parseFML_fuel_mono (fuel extra : Nat) (fs : FileSys) (vars : VarMap)
    (visiting : List (List String)) (base : List String) (rel : FPath)
    (h : parseFML fuel fs vars visiting base rel ≠ .error .outOfFuel) :
    parseFML (fuel + extra) fs vars visiting base rel =
      parseFML fuel fs vars visiting base rel := by
  induction extra with
  | zero => rfl
  | succ k ihk =>
    have hk : parseFML (fuel + k) fs vars visiting base rel ≠ .error .outOfFuel := by
      rw [ihk]; exact h
    calc parseFML (fuel + (k + 1)) fs vars visiting base rel
        = parseFML (fuel + k + 1) fs vars visiting base rel := rfl
      _ = parseFML (fuel + k) fs vars visiting base rel :=
          (fuelMonoAux (fuel + k)).1 _ _ _ _ _ hk
      _ = parseFML fuel fs vars visiting base rel := ihk
